import Mathlib

/-!
Verification of the `python-fastapi` template of mITyFactory: the in-memory
CRUD service (`src/services/example.py`), its schema layer
(`src/models/schemas.py`), the item routes (`src/api/routes.py`) and the
health endpoints (`src/api/health.py`).

The Python code is embedded shallowly:

* `Item` / `ItemCreate` mirror the pydantic models; timestamps are `Nat`.
* The service's `self._items : dict[str, Item]` is an association list
  `Store` with Python-dict semantics: `dictGet` is `d.get(k)`, `dictSet`
  is `d[k] = v` (replacing in place keeps the key's position, a new key
  is appended at the end, matching insertion order), `dictDelete` is
  `del d[k]`, and `dictValues` is `list(d.values())`.
* Each service method becomes a function `Store → args → result × Store`
  (explicit state passing); nondeterministic inputs of the code —
  `uuid.uuid4()` and `datetime.utcnow()` — become explicit parameters.
* `Op` and `run` give the traces of service calls reachable from the
  empty store of `__init__`.
-/

/-- Mirrors pydantic `ItemCreate` (= `ItemBase`) from `src/models/schemas.py`:
`name`, optional `description`, `tags`. -/
structure ItemCreate where
  name : String
  description : Option String
  tags : List String
deriving Repr, DecidableEq

/-- Mirrors pydantic `Item` from `src/models/schemas.py`. -/
structure Item where
  id : String
  name : String
  description : Option String
  tags : List String
  created_at : Nat
  updated_at : Option Nat
deriving Repr, DecidableEq

/-- The field validation of `ItemBase`: `name` length between 1 and 100,
`description` (when present) length at most 500.  `tags` is unconstrained. -/
def ItemCreate.validB (ic : ItemCreate) : Bool :=
  decide (1 ≤ ic.name.length) && decide (ic.name.length ≤ 100) &&
    ic.description.all (fun d => decide (d.length ≤ 500))

/-- The service store `self._items : dict[str, Item]`, as an association
list in insertion order. -/
abbrev Store : Type := List (String × Item)

/-- Python `d.get(k)`: the value at the first (only) occurrence of `k`. -/
def dictGet (k : String) : Store → Option Item
  | [] => none
  | (k', v) :: rest => if k' = k then some v else dictGet k rest

/-- Python `k in d`. -/
def dictContains (k : String) (s : Store) : Bool :=
  (dictGet k s).isSome

/-- Python `d[k] = v`: replace in place if the key is present (its position
in insertion order is kept), append at the end otherwise. -/
def dictSet (k : String) (v : Item) : Store → Store
  | [] => [(k, v)]
  | (k', v') :: rest =>
    if k' = k then (k, v) :: rest else (k', v') :: dictSet k v rest

/-- Python `del d[k]`: drop the entry with key `k`. -/
def dictDelete (k : String) : Store → Store
  | [] => []
  | (k', v') :: rest => if k' = k then rest else (k', v') :: dictDelete k rest

/-- The keys of the dict in insertion order. -/
def dictKeys (s : Store) : List String :=
  s.map Prod.fst

/-- Python `list(d.values())`: values in insertion order. -/
def dictValues (s : Store) : List Item :=
  s.map Prod.snd

/-- `ExampleService.list_items`: `return list(self._items.values())`.
The store is returned unchanged (the method only reads `self._items`). -/
def list_items (s : Store) : List Item × Store :=
  (dictValues s, s)

/-- `ExampleService.get_item`: `return self._items.get(item_id)`.
The store is returned unchanged (the method only reads `self._items`). -/
def get_item (s : Store) (item_id : String) : Option Item × Store :=
  (dictGet item_id s, s)

/-- `ExampleService.create_item`: builds the `Item` with the freshly
generated id (`str(uuid.uuid4())`, here the parameter `item_id`),
`created_at = now`, `updated_at = None`, then `self._items[item_id] = item`. -/
def create_item (s : Store) (item_create : ItemCreate) (item_id : String)
    (now : Nat) : Item × Store :=
  let item : Item :=
    { id := item_id
      name := item_create.name
      description := item_create.description
      tags := item_create.tags
      created_at := now
      updated_at := none }
  (item, dictSet item_id item s)

/-- `ExampleService.update_item`: `None` if `item_id not in self._items`;
otherwise a new `Item` keeping `item_id` and the existing `created_at`,
taking `name`/`description`/`tags` from the payload, with
`updated_at = datetime.utcnow()` (the parameter `now`), stored back. -/
def update_item (s : Store) (item_id : String) (item_update : ItemCreate)
    (now : Nat) : Option Item × Store :=
  match dictGet item_id s with
  | none => (none, s)
  | some existing =>
    let updated : Item :=
      { id := item_id
        name := item_update.name
        description := item_update.description
        tags := item_update.tags
        created_at := existing.created_at
        updated_at := some now }
    (some updated, dictSet item_id updated s)

/-- `ExampleService.delete_item`: `if item_id in self._items: del ...;
return True` else `return False`. -/
def delete_item (s : Store) (item_id : String) : Bool × Store :=
  if dictContains item_id s then (true, dictDelete item_id s)
  else (false, s)

/-- One service call with its environment-chosen inputs (fresh uuid string,
current time). -/
inductive Op where
  | listOp : Op
  | getOp : String → Op
  | createOp : ItemCreate → String → Nat → Op
  | updateOp : String → ItemCreate → Nat → Op
  | deleteOp : String → Op
deriving Repr, DecidableEq

/-- The store after one service call. -/
def applyOp (s : Store) : Op → Store
  | .listOp => (list_items s).2
  | .getOp i => (get_item s i).2
  | .createOp ic newId now => (create_item s ic newId now).2
  | .updateOp i ic now => (update_item s i ic now).2
  | .deleteOp i => (delete_item s i).2

/-- The store after a trace of service calls starting from `s`. -/
def runFrom (s : Store) (tr : List Op) : Store :=
  tr.foldl applyOp s

/-- The store after a trace of service calls starting from the empty store
of `ExampleService.__init__`. -/
def run (tr : List Op) : Store :=
  runFrom [] tr

/-- Python dict keys are unique; the association lists we reach have
pairwise distinct keys. -/
def NodupKeys (s : Store) : Prop :=
  (dictKeys s).Nodup

instance (s : Store) : Decidable (NodupKeys s) := by
  unfold NodupKeys
  infer_instance

theorem dictGet_dictSet_self (k : String) (v : Item) (s : Store) :
    dictGet k (dictSet k v s) = some v := by
  induction s with
  | nil => simp [dictGet, dictSet]
  | cons hd tl ih =>
    obtain ⟨k', v'⟩ := hd
    by_cases h : k' = k <;> simp [dictGet, dictSet, h, ih]

theorem dictGet_dictSet_ne (k k' : String) (v : Item) (s : Store)
    (h : k' ≠ k) : dictGet k (dictSet k' v s) = dictGet k s := by
  induction s with
  | nil => simp [dictGet, dictSet, h]
  | cons hd tl ih =>
    obtain ⟨k0, v0⟩ := hd
    by_cases h0 : k0 = k'
    · subst h0
      simp [dictGet, dictSet, h]
    · by_cases h1 : k0 = k <;> simp [dictGet, dictSet, h0, h1, Ne.symm h, ih]

theorem dictGet_dictDelete_ne (k k' : String) (s : Store) (h : k' ≠ k) :
    dictGet k (dictDelete k' s) = dictGet k s := by
  induction s with
  | nil => simp [dictDelete]
  | cons hd tl ih =>
    obtain ⟨k0, v0⟩ := hd
    by_cases h0 : k0 = k'
    · subst h0
      simp [dictGet, dictDelete, h]
    · by_cases h1 : k0 = k <;> simp [dictGet, dictDelete, h0, h1, Ne.symm h, ih]

theorem dictDelete_sublist (k : String) (s : Store) :
    (dictDelete k s).Sublist s := by
  induction s with
  | nil => simp [dictDelete]
  | cons hd tl ih =>
    obtain ⟨k0, v0⟩ := hd
    by_cases h0 : k0 = k
    · simp [dictDelete, h0]
    · simpa [dictDelete, h0] using ih.cons₂ (k0, v0)

theorem dictGet_eq_none_of_not_mem_keys (k : String) (s : Store)
    (h : k ∉ dictKeys s) : dictGet k s = none := by
  induction s with
  | nil => simp [dictGet]
  | cons hd tl ih =>
    obtain ⟨k0, v0⟩ := hd
    simp only [dictKeys, List.map_cons, List.mem_cons] at h
    push_neg at h
    simp only [dictGet, if_neg (Ne.symm h.1)]
    exact ih h.2

theorem dictGet_dictDelete_self (k : String) (s : Store) (h : NodupKeys s) :
    dictGet k (dictDelete k s) = none := by
  induction s with
  | nil => simp [dictDelete, dictGet]
  | cons hd tl ih =>
    obtain ⟨k0, v0⟩ := hd
    simp only [NodupKeys, dictKeys, List.map_cons, List.nodup_cons] at h
    by_cases h0 : k0 = k
    · subst h0
      simp only [dictDelete, if_pos rfl]
      exact dictGet_eq_none_of_not_mem_keys k0 tl h.1
    · simp only [dictDelete, if_neg h0, dictGet]
      exact ih h.2

theorem length_dictSet_of_contains (k : String) (v : Item) (s : Store)
    (h : dictContains k s = true) : (dictSet k v s).length = s.length := by
  induction s with
  | nil => simp [dictContains, dictGet] at h
  | cons hd tl ih =>
    obtain ⟨k0, v0⟩ := hd
    by_cases h0 : k0 = k
    · simp [dictSet, h0]
    · simp only [dictContains, dictGet, if_neg h0, Option.isSome] at h
      simp only [dictSet, if_neg h0, List.length_cons]
      rw [ih]
      rcases he : dictGet k tl with _ | v1
      · rw [he] at h
        simp at h
      · simp [dictContains, he]

theorem length_dictSet_of_fresh (k : String) (v : Item) (s : Store)
    (h : dictContains k s = false) : (dictSet k v s).length = s.length + 1 := by
  induction s with
  | nil => simp [dictSet]
  | cons hd tl ih =>
    obtain ⟨k0, v0⟩ := hd
    simp only [dictContains, dictGet] at h
    by_cases h0 : k0 = k
    · rw [if_pos h0] at h
      simp at h
    · rw [if_neg h0] at h
      simp only [dictSet, if_neg h0, List.length_cons]
      rw [ih]
      simp [dictContains, h]

theorem length_dictDelete_of_contains (k : String) (s : Store)
    (h : dictContains k s = true) : (dictDelete k s).length + 1 = s.length := by
  induction s with
  | nil => simp [dictContains, dictGet] at h
  | cons hd tl ih =>
    obtain ⟨k0, v0⟩ := hd
    simp only [dictContains, dictGet] at h
    by_cases h0 : k0 = k
    · simp [dictDelete, h0]
    · rw [if_neg h0] at h
      simp only [dictDelete, if_neg h0, List.length_cons]
      rw [ih]
      simp [dictContains, h]

theorem dictKeys_dictSet_of_contains (k : String) (v : Item) (s : Store)
    (h : dictContains k s = true) : dictKeys (dictSet k v s) = dictKeys s := by
  induction s with
  | nil => simp [dictContains, dictGet] at h
  | cons hd tl ih =>
    obtain ⟨k0, v0⟩ := hd
    simp only [dictContains, dictGet] at h
    by_cases h0 : k0 = k
    · simp [dictSet, dictKeys, h0]
    · rw [if_neg h0] at h
      simp only [dictSet, if_neg h0, dictKeys, List.map_cons] at ih ⊢
      rw [ih]
      simp [dictContains, h]

theorem dictKeys_dictSet_of_fresh (k : String) (v : Item) (s : Store)
    (h : dictContains k s = false) :
    dictKeys (dictSet k v s) = dictKeys s ++ [k] := by
  induction s with
  | nil => simp [dictSet, dictKeys]
  | cons hd tl ih =>
    obtain ⟨k0, v0⟩ := hd
    simp only [dictContains, dictGet] at h
    by_cases h0 : k0 = k
    · rw [if_pos h0] at h
      simp at h
    · rw [if_neg h0] at h
      simp only [dictSet, if_neg h0, dictKeys, List.map_cons, List.cons_append] at ih ⊢
      rw [ih]
      simp [dictContains, h]

theorem dictKeys_dictDelete (k : String) (s : Store) :
    dictKeys (dictDelete k s) = (dictKeys s).erase k := by
  induction s with
  | nil => simp [dictDelete, dictKeys]
  | cons hd tl ih =>
    obtain ⟨k0, v0⟩ := hd
    by_cases h0 : k0 = k
    · simp [dictDelete, dictKeys, h0, List.erase_cons_head]
    · simp only [dictDelete, if_neg h0, dictKeys, List.map_cons] at ih ⊢
      rw [List.erase_cons_tail, ih]
      simp [h0]

theorem mem_dictSet (k k' : String) (v v' : Item) (s : Store)
    (h : (k', v') ∈ dictSet k v s) : (k' = k ∧ v' = v) ∨ (k', v') ∈ s := by
  induction s with
  | nil =>
    simp only [dictSet, List.mem_singleton] at h
    exact Or.inl ⟨congrArg Prod.fst h, congrArg Prod.snd h⟩
  | cons hd tl ih =>
    obtain ⟨k0, v0⟩ := hd
    by_cases h0 : k0 = k
    · rw [dictSet, if_pos h0] at h
      rcases List.mem_cons.mp h with h1 | h1
      · exact Or.inl ⟨congrArg Prod.fst h1, congrArg Prod.snd h1⟩
      · exact Or.inr (List.mem_cons_of_mem _ h1)
    · rw [dictSet, if_neg h0] at h
      rcases List.mem_cons.mp h with h1 | h1
      · exact Or.inr (List.mem_cons.mpr (Or.inl h1))
      · rcases ih h1 with h2 | h2
        · exact Or.inl h2
        · exact Or.inr (List.mem_cons_of_mem _ h2)

theorem dictGet_mem (k : String) (v : Item) (s : Store)
    (h : dictGet k s = some v) : (k, v) ∈ s := by
  induction s with
  | nil => simp [dictGet] at h
  | cons hd tl ih =>
    obtain ⟨k0, v0⟩ := hd
    by_cases h0 : k0 = k
    · rw [dictGet, if_pos h0] at h
      subst h0
      exact List.mem_cons.mpr (Or.inl (by simpa using h.symm))
    · rw [dictGet, if_neg h0] at h
      exact List.mem_cons_of_mem _ (ih h)

theorem not_mem_keys_of_dictGet_eq_none (k : String) (s : Store)
    (h : dictGet k s = none) : k ∉ dictKeys s := by
  induction s with
  | nil => simp [dictKeys]
  | cons hd tl ih =>
    obtain ⟨k0, v0⟩ := hd
    by_cases h0 : k0 = k
    · rw [dictGet, if_pos h0] at h
      simp at h
    · rw [dictGet, if_neg h0] at h
      simp only [dictKeys, List.map_cons, List.mem_cons]
      push_neg
      exact ⟨Ne.symm h0, ih h⟩

theorem nodupKeys_dictSet (k : String) (v : Item) (s : Store)
    (h : NodupKeys s) : NodupKeys (dictSet k v s) := by
  rcases hc : dictContains k s with _ | _
  · have hk : k ∉ dictKeys s := by
      apply not_mem_keys_of_dictGet_eq_none
      rw [dictContains] at hc
      exact Option.not_isSome_iff_eq_none.mp (by simp [hc])
    unfold NodupKeys at h ⊢
    rw [dictKeys_dictSet_of_fresh k v s hc]
    simp [List.nodup_append, h, hk]
  · unfold NodupKeys at h ⊢
    rw [dictKeys_dictSet_of_contains k v s hc]
    exact h

theorem nodupKeys_dictDelete (k : String) (s : Store)
    (h : NodupKeys s) : NodupKeys (dictDelete k s) := by
  unfold NodupKeys at h ⊢
  have hs : (dictKeys (dictDelete k s)).Sublist (dictKeys s) :=
    List.Sublist.map Prod.fst (dictDelete_sublist k s)
  exact List.Nodup.sublist hs h

theorem runFrom_preserves (P : Store → Prop)
    (hstep : ∀ s op, P s → P (applyOp s op)) :
    ∀ (tr : List Op) (s : Store), P s → P (runFrom s tr) := by
  intro tr
  induction tr with
  | nil => intro s hs; exact hs
  | cons op rest ih =>
    intro s hs
    exact ih (applyOp s op) (hstep s op hs)

/-- The basic store invariant: every stored `Item` carries the key it is
stored under as its `id`, and the dict keys are pairwise distinct. -/
def storeInv (s : Store) : Prop :=
  (∀ k it, (k, it) ∈ s → it.id = k) ∧ NodupKeys s

theorem storeInv_applyOp (s : Store) (op : Op) (h : storeInv s) :
    storeInv (applyOp s op) := by
  obtain ⟨hid, hnd⟩ := h
  cases op with
  | listOp => exact ⟨hid, hnd⟩
  | getOp i => exact ⟨hid, hnd⟩
  | createOp ic newId now =>
    constructor
    · intro k it hm
      rcases mem_dictSet newId k _ it s hm with ⟨hk, hv⟩ | hm'
      · subst hk; subst hv; rfl
      · exact hid k it hm'
    · exact nodupKeys_dictSet _ _ _ hnd
  | updateOp i ic now =>
    simp only [applyOp, update_item]
    rcases hg : dictGet i s with _ | existing
    · exact ⟨hid, hnd⟩
    · constructor
      · intro k it hm
        rcases mem_dictSet i k _ it s hm with ⟨hk, hv⟩ | hm'
        · subst hk; subst hv; rfl
        · exact hid k it hm'
      · exact nodupKeys_dictSet _ _ _ hnd
  | deleteOp i =>
    simp only [applyOp, delete_item]
    by_cases hc : dictContains i s = true
    · simp only [hc, if_true]
      constructor
      · intro k it hm
        exact hid k it ((dictDelete_sublist i s).mem hm)
      · exact nodupKeys_dictDelete _ _ hnd
    · simp only [hc, if_false]
      exact ⟨hid, hnd⟩

theorem storeInv_run (tr : List Op) : storeInv (run tr) := by
  apply runFrom_preserves storeInv storeInv_applyOp
  exact ⟨by intro k it hm; simp at hm, by simp [NodupKeys, dictKeys]⟩

/-- The timestamps (`datetime.utcnow()` readings) an operation carries. -/
def opTimes : Op → List Nat
  | .createOp _ _ t => [t]
  | .updateOp _ _ t => [t]
  | _ => []

/-- All clock readings in the trace are at most `n`: `n` is a later (or
equal) reading of the monotone process clock. -/
def timesLE (tr : List Op) (n : Nat) : Bool :=
  tr.all fun op => (opTimes op).all fun t => decide (t ≤ n)

/-- Every timestamp stored anywhere in `s` is at most `n`. -/
def timeCap (s : Store) (n : Nat) : Prop :=
  ∀ k it, (k, it) ∈ s →
    it.created_at ≤ n ∧ ∀ t, it.updated_at = some t → t ≤ n

theorem timeCap_applyOp (n : Nat) (s : Store) (op : Op)
    (hop : (opTimes op).all (fun t => decide (t ≤ n)) = true)
    (h : timeCap s n) : timeCap (applyOp s op) n := by
  cases op with
  | listOp => exact h
  | getOp i => exact h
  | createOp ic newId now =>
    simp only [opTimes, List.all_cons, List.all_nil, Bool.and_true,
      decide_eq_true_eq] at hop
    intro k it hm
    rcases mem_dictSet newId k _ it s hm with ⟨hk, hv⟩ | hm'
    · subst hv
      exact ⟨hop, by intro t ht; simp at ht⟩
    · exact h k it hm'
  | updateOp i ic now =>
    simp only [opTimes, List.all_cons, List.all_nil, Bool.and_true,
      decide_eq_true_eq] at hop
    simp only [applyOp, update_item]
    rcases hg : dictGet i s with _ | existing
    · exact h
    · intro k it hm
      rcases mem_dictSet i k _ it s hm with ⟨hk, hv⟩ | hm'
      · subst hv
        refine ⟨?_, ?_⟩
        · exact (h i existing (dictGet_mem i existing s hg)).1
        · intro t ht
          simp only [Option.some_inj] at ht
          subst ht
          exact hop
      · exact h k it hm'
  | deleteOp i =>
    simp only [applyOp, delete_item]
    by_cases hc : dictContains i s = true
    · simp only [hc, if_true]
      intro k it hm
      exact h k it ((dictDelete_sublist i s).mem hm)
    · simp only [hc, if_false]
      exact h

theorem timeCap_runFrom (n : Nat) (tr : List Op) :
    ∀ s : Store, timesLE tr n = true → timeCap s n →
      timeCap (runFrom s tr) n := by
  induction tr with
  | nil => intro s _ hs; exact hs
  | cons op rest ih =>
    intro s htr hs
    simp only [timesLE, List.all_cons, Bool.and_eq_true] at htr
    exact ih (applyOp s op) htr.2 (timeCap_applyOp n s op htr.1 hs)

theorem timeCap_run (n : Nat) (tr : List Op) (h : timesLE tr n = true) :
    timeCap (run tr) n := by
  apply timeCap_runFrom n tr [] h
  intro k it hm
  simp at hm

/-- Number of `create_item` calls in a trace (every call succeeds). -/
def countCreates : List Op → Nat
  | [] => 0
  | .createOp _ _ _ :: rest => countCreates rest + 1
  | .listOp :: rest => countCreates rest
  | .getOp _ :: rest => countCreates rest
  | .updateOp _ _ _ :: rest => countCreates rest
  | .deleteOp _ :: rest => countCreates rest

/-- Number of `delete_item` calls in a trace that return `True`, starting
from store `s`. -/
def countTrueDeletes : Store → List Op → Nat
  | _, [] => 0
  | s, .deleteOp i :: rest =>
    (if dictContains i s then 1 else 0) + countTrueDeletes (applyOp s (.deleteOp i)) rest
  | s, op :: rest => countTrueDeletes (applyOp s op) rest

/-- Every `create_item` call in the trace is handed an id that is not yet a
key of the store at that moment (what `uuid.uuid4()` gives in practice). -/
def freshAlong : Store → List Op → Bool
  | _, [] => true
  | s, .createOp ic newId now :: rest =>
    !dictContains newId s && freshAlong (applyOp s (.createOp ic newId now)) rest
  | s, op :: rest => freshAlong (applyOp s op) rest

theorem length_update_item (s : Store) (i : String) (ic : ItemCreate) (now : Nat) :
    (update_item s i ic now).2.length = s.length := by
  rcases hg : dictGet i s with _ | existing
  · simp [update_item, hg]
  · simp only [update_item, hg]
    apply length_dictSet_of_contains
    simp [dictContains, hg]

theorem length_runFrom_counts (tr : List Op) :
    ∀ s : Store, freshAlong s tr = true →
      (runFrom s tr).length + countTrueDeletes s tr = s.length + countCreates tr := by
  induction tr with
  | nil => intro s _; simp [runFrom, countTrueDeletes, countCreates]
  | cons op rest ih =>
    intro s hf
    have hrun : runFrom s (op :: rest) = runFrom (applyOp s op) rest := rfl
    cases op with
    | listOp =>
      rw [hrun]
      exact ih s hf
    | getOp i =>
      rw [hrun]
      exact ih s hf
    | createOp ic newId now =>
      simp only [freshAlong, Bool.and_eq_true, Bool.not_eq_true'] at hf
      rw [hrun]
      have := ih (applyOp s (.createOp ic newId now)) hf.2
      have hlen : (applyOp s (.createOp ic newId now)).length = s.length + 1 := by
        simpa [applyOp, create_item] using
          length_dictSet_of_fresh newId _ s hf.1
      simp only [countTrueDeletes, countCreates]
      omega
    | updateOp i ic now =>
      rw [hrun]
      have := ih (applyOp s (.updateOp i ic now)) hf
      have hlen : (applyOp s (.updateOp i ic now)).length = s.length :=
        length_update_item s i ic now
      simp only [countTrueDeletes, countCreates]
      omega
    | deleteOp i =>
      rw [hrun]
      have hih := ih (applyOp s (.deleteOp i)) hf
      have hstep : countTrueDeletes s (Op.deleteOp i :: rest) =
          (if dictContains i s then 1 else 0) +
            countTrueDeletes (applyOp s (.deleteOp i)) rest := rfl
      have hcc : countCreates (Op.deleteOp i :: rest) = countCreates rest := rfl
      rw [hstep, hcc]
      by_cases hc : dictContains i s = true
      · have hlen : (applyOp s (.deleteOp i)).length + 1 = s.length := by
          simpa [applyOp, delete_item, hc] using
            length_dictDelete_of_contains i s hc
        simp only [hc, if_true]
        omega
      · have hb : dictContains i s = false := by
          rcases hx : dictContains i s with _ | _
          · rfl
          · exact absurd hx hc
        have hlen : applyOp s (.deleteOp i) = s := by
          simp [applyOp, delete_item, hb]
        simp only [hb, Bool.false_eq_true, if_false]
        rw [hlen] at hih ⊢
        omega

/-- `ItemList` from `src/models/schemas.py`. -/
structure ItemList where
  items : List Item
  total : Nat
deriving Repr, DecidableEq

/-- `GET /items` from `src/api/routes.py`: status 200 and
`ItemList(items=items, total=len(items))`. -/
def listItemsRoute (s : Store) : (Nat × ItemList) × Store :=
  let r := list_items s
  ((200, { items := r.1, total := r.1.length }), r.2)

/-- `GET /items/{item_id}` from `src/api/routes.py`: 404 when the service
returns `None`, else 200 with the item. -/
def getItemRoute (s : Store) (item_id : String) : (Nat × Option Item) × Store :=
  let r := get_item s item_id
  match r.1 with
  | none => ((404, none), r.2)
  | some it => ((200, some it), r.2)

/-- `POST /items` from `src/api/routes.py`: status 201 with the created item. -/
def createItemRoute (s : Store) (item : ItemCreate) (newId : String)
    (now : Nat) : (Nat × Item) × Store :=
  let r := create_item s item newId now
  ((201, r.1), r.2)

/-- `DELETE /items/{item_id}` from `src/api/routes.py`: 204 with empty body
when the service returns `True`, 404 with a detail body otherwise. -/
def deleteItemRoute (s : Store) (item_id : String) :
    (Nat × Option String) × Store :=
  let r := delete_item s item_id
  if r.1 then ((204, none), r.2) else ((404, some "Item not found"), r.2)

/-- `HealthResponse` from `src/api/health.py`. -/
structure HealthResponse where
  status : String
  timestamp : String
  version : String
deriving Repr, DecidableEq

/-- `health_check` from `src/api/health.py` (the `/health` handler body);
`now` is `datetime.utcnow().isoformat()`. -/
def health_check (now : String) : HealthResponse :=
  { status := "healthy", timestamp := now, version := "0.1.0" }

/-- The `/health` route: no failure path, always HTTP 200. -/
def healthRoute (now : String) : Nat × HealthResponse :=
  (200, health_check now)

/-- `ReadinessResponse` from `src/api/health.py`. -/
structure ReadinessResponse where
  ready : Bool
  checks : List (String × Bool)
deriving Repr, DecidableEq

/-- The `checks` dict built in `readiness_check`: only the hardcoded
`"api": True` entry (database/cache checks are commented out). -/
def readinessChecks : List (String × Bool) :=
  [("api", true)]

/-- `readiness_check` from `src/api/health.py`:
`ready = all(checks.values())`. -/
def readiness_check : ReadinessResponse :=
  { ready := (readinessChecks.map Prod.snd).all fun b => b
    checks := readinessChecks }

/-- The `/ready` route: no failure path, always HTTP 200. -/
def readyRoute : Nat × ReadinessResponse :=
  (200, readiness_check)

/-- `liveness_check` from `src/api/health.py`: `{"status": "alive"}`. -/
def liveness_check : List (String × String) :=
  [("status", "alive")]

/-- The `/live` route: no failure path, always HTTP 200. -/
def liveRoute : Nat × List (String × String) :=
  (200, liveness_check)

theorem dictGet_eq_none_of_contains_false (k : String) (s : Store)
    (h : dictContains k s = false) : dictGet k s = none := by
  rcases hg : dictGet k s with _ | v
  · rfl
  · rw [dictContains, hg] at h
    simp at h

theorem map_id_eq_keys : ∀ s : Store,
    (∀ k it, (k, it) ∈ s → it.id = k) →
      s.map (fun kv => kv.2.id) = dictKeys s := by
  intro s
  induction s with
  | nil => intro _; rfl
  | cons hd tl ih =>
    intro h
    obtain ⟨k0, v0⟩ := hd
    have h0 : v0.id = k0 := h k0 v0 (List.mem_cons_self _ _)
    have htl := ih fun k it hm => h k it (List.mem_cons_of_mem _ hm)
    simp only [List.map_cons, dictKeys] at htl ⊢
    rw [h0, htl]

theorem values_map_id (s : Store)
    (h : ∀ k it, (k, it) ∈ s → it.id = k) :
    (dictValues s).map Item.id = dictKeys s := by
  rw [dictValues, List.map_map]
  exact map_id_eq_keys s h

/-- C1: for a valid `ItemCreate` payload `p` and any store, `create_item`
returns an item taking `name`, `description` and `tags` from `p` with
`updated_at` absent, and `get_item` on the returned id in the resulting
store yields exactly that item. -/
theorem C1_create_then_get (s : Store) (p : ItemCreate) (newId : String)
    (now : Nat) (hv : p.validB = true) :
    (create_item s p newId now).1.name = p.name ∧
    (create_item s p newId now).1.description = p.description ∧
    (create_item s p newId now).1.tags = p.tags ∧
    (create_item s p newId now).1.updated_at = none ∧
    (get_item (create_item s p newId now).2
        (create_item s p newId now).1.id).1 =
      some (create_item s p newId now).1 := by
  refine ⟨rfl, rfl, rfl, rfl, ?_⟩
  exact dictGet_dictSet_self newId _ s

/-- Witness for C1 at the payload of the spec's end-to-end scenario. -/
theorem C1_create_then_get_witness :
    (get_item
        (create_item [] ⟨"Test Item", some "A test item", ["test", "example"]⟩
          "id-1" 0).2
        (create_item [] ⟨"Test Item", some "A test item", ["test", "example"]⟩
          "id-1" 0).1.id).1 =
      some (create_item [] ⟨"Test Item", some "A test item", ["test", "example"]⟩
          "id-1" 0).1 :=
  (C1_create_then_get [] ⟨"Test Item", some "A test item", ["test", "example"]⟩
    "id-1" 0 (by decide)).2.2.2.2

/-- C5: in every store reachable from the empty store, each stored item's
`id` equals the key it is stored under, the keys are pairwise distinct, and
hence the stored items' ids are pairwise distinct. -/
theorem C5_ids_unique (tr : List Op) :
    (∀ k it, (k, it) ∈ run tr → it.id = k) ∧
    NodupKeys (run tr) ∧
    ((run tr).map (fun kv => kv.2.id)).Nodup := by
  obtain ⟨hid, hnd⟩ := storeInv_run tr
  refine ⟨hid, hnd, ?_⟩
  rw [map_id_eq_keys (run tr) hid]
  exact hnd

/-- C7: `/health` answers 200 with status `"healthy"`, `/live` answers 200
with status `"alive"`, `/ready` answers 200 and is ready iff every entry of
its checks map is true, the checks map being the fixed `{"api": True}`. -/
theorem C7_health_endpoints (now : String) :
    (healthRoute now).1 = 200 ∧
    (healthRoute now).2.status = "healthy" ∧
    liveRoute.1 = 200 ∧
    liveRoute.2 = [("status", "alive")] ∧
    readyRoute.1 = 200 ∧
    (readyRoute.2.ready = true ↔ ∀ c ∈ readyRoute.2.checks, c.2 = true) ∧
    readyRoute.2.checks = [("api", true)] := by
  refine ⟨rfl, rfl, rfl, rfl, rfl, ?_, rfl⟩
  decide

/-- C9: `get_item` and `list_items` return the store unchanged, whether or
not the looked-up id is present. -/
theorem C9_reads_pure (s : Store) (id : String) :
    (get_item s id).2 = s ∧ (list_items s).2 = s :=
  ⟨rfl, rfl⟩

/-- C10: `create_item` stores the new item under the generated id without
any collision check; if the id already maps to an item, that entry now
yields the new item and the store size does not grow. -/
theorem C10_create_no_collision_check (s : Store) (ic : ItemCreate)
    (newId : String) (now : Nat) :
    dictGet newId (create_item s ic newId now).2 =
      some (create_item s ic newId now).1 ∧
    (∀ old, dictGet newId s = some old →
      (create_item s ic newId now).2.length = s.length) := by
  refine ⟨dictGet_dictSet_self newId _ s, ?_⟩
  intro old hold
  apply length_dictSet_of_contains
  simp [dictContains, hold]

/-- Witness for C10: creating over the existing key `"k1"` replaces the old
item and keeps the store size at 1. -/
theorem C10_create_no_collision_check_witness :
    (create_item [("k1", ⟨"k1", "old", none, [], 0, none⟩)]
        ⟨"new", none, []⟩ "k1" 3).2.length =
      [("k1", (⟨"k1", "old", none, [], 0, none⟩ : Item))].length :=
  (C10_create_no_collision_check [("k1", ⟨"k1", "old", none, [], 0, none⟩)]
      ⟨"new", none, []⟩ "k1" 3).2
    ⟨"k1", "old", none, [], 0, none⟩ rfl

/-- C3: `delete_item` returns `True` exactly when the id is present; on
success the entry is removed (a following `get_item` is `None`, other
entries are untouched, a second delete reports `False`) and the route
answers 204 with empty body; on a miss the store is unchanged, a repeat
delete still reports `False`, and the route answers 404. -/
theorem C3_delete_semantics (s : Store) (id : String) (hnd : NodupKeys s) :
    ((delete_item s id).1 = true ↔ dictContains id s = true) ∧
    (dictContains id s = true →
      delete_item s id = (true, dictDelete id s) ∧
      (get_item (delete_item s id).2 id).1 = none ∧
      (∀ k, k ≠ id → dictGet k (delete_item s id).2 = dictGet k s) ∧
      (delete_item (delete_item s id).2 id).1 = false ∧
      deleteItemRoute s id = ((204, none), dictDelete id s)) ∧
    (dictContains id s = false →
      delete_item s id = (false, s) ∧
      (delete_item (delete_item s id).2 id).1 = false ∧
      deleteItemRoute s id = ((404, some "Item not found"), s)) := by
  by_cases hc : dictContains id s = true
  · have hd : delete_item s id = (true, dictDelete id s) := by
      simp [delete_item, hc]
    have hdel : dictGet id (dictDelete id s) = none :=
      dictGet_dictDelete_self id s hnd
    have hcd : dictContains id (dictDelete id s) = false := by
      rw [dictContains, hdel]
      rfl
    refine ⟨?_, ?_, ?_⟩
    · rw [hd]
      simp [hc]
    · intro _
      refine ⟨hd, ?_, ?_, ?_, ?_⟩
      · rw [hd]
        exact hdel
      · intro k hk
        rw [hd]
        exact dictGet_dictDelete_ne k id s (Ne.symm hk)
      · rw [hd]
        simp [delete_item, hcd]
      · simp [deleteItemRoute, hd]
    · intro hcf
      rw [hc] at hcf
      exact Bool.noConfusion hcf
  · have hb : dictContains id s = false := by
      rcases hx : dictContains id s with _ | _
      · rfl
      · exact absurd hx hc
    have hd : delete_item s id = (false, s) := by
      simp [delete_item, hb]
    refine ⟨?_, ?_, ?_⟩
    · rw [hd]
      simp [hb]
    · intro hct
      rw [hct] at hb
      exact Bool.noConfusion hb
    · intro _
      refine ⟨hd, ?_, ?_⟩
      · rw [hd]
        show (delete_item s id).1 = false
        rw [hd]
      · simp [deleteItemRoute, hd]

/-- Witness for C3: deleting the only item of a one-item store answers 204
with empty body and the store with the entry removed. -/
theorem C3_delete_semantics_witness :
    deleteItemRoute [("k1", ⟨"k1", "a", none, [], 0, none⟩)] "k1" =
      ((204, none), dictDelete "k1" [("k1", ⟨"k1", "a", none, [], 0, none⟩)]) :=
  ((C3_delete_semantics [("k1", ⟨"k1", "a", none, [], 0, none⟩)] "k1"
      (by decide)).2.1 (by decide)).2.2.2.2

/-- C8: `create_item` stores `updated_at = None`, a successful `update_item`
stores `updated_at = now`, and no other operation touches any other entry:
update and create leave entries under other keys unchanged, delete leaves
entries under other keys unchanged, and get/list do not change the store. -/
theorem C8_updated_at_tracks_updates (s : Store) (ic : ItemCreate)
    (newId id k : String) (now : Nat) :
    (create_item s ic newId now).1.updated_at = none ∧
    dictGet newId (create_item s ic newId now).2 =
      some (create_item s ic newId now).1 ∧
    (∀ u, (update_item s id ic now).1 = some u →
      u.updated_at = some now ∧
      dictGet id (update_item s id ic now).2 = some u) ∧
    (k ≠ id → dictGet k (update_item s id ic now).2 = dictGet k s) ∧
    (k ≠ newId → dictGet k (create_item s ic newId now).2 = dictGet k s) ∧
    (k ≠ id → dictGet k (delete_item s id).2 = dictGet k s) ∧
    (get_item s id).2 = s ∧ (list_items s).2 = s := by
  refine ⟨rfl, dictGet_dictSet_self newId _ s, ?_, ?_, ?_, ?_, rfl, rfl⟩
  · intro u hu
    rcases hg : dictGet id s with _ | ex
    · simp [update_item, hg] at hu
    · simp only [update_item, hg] at hu ⊢
      have he := Option.some_inj.mp hu
      subst he
      exact ⟨rfl, dictGet_dictSet_self id _ s⟩
  · intro hk
    rcases hg : dictGet id s with _ | ex
    · simp [update_item, hg]
    · simp only [update_item, hg]
      exact dictGet_dictSet_ne k id _ s (Ne.symm hk)
  · intro hk
    have h2 : (create_item s ic newId now).2 =
        dictSet newId (create_item s ic newId now).1 s := rfl
    rw [h2]
    exact dictGet_dictSet_ne k newId _ s (Ne.symm hk)
  · intro hk
    by_cases hc : dictContains id s = true
    · have h2 : (delete_item s id).2 = dictDelete id s := by
        simp [delete_item, hc]
      rw [h2]
      exact dictGet_dictDelete_ne k id s (Ne.symm hk)
    · have hb : dictContains id s = false := by
        rcases hx : dictContains id s with _ | _
        · rfl
        · exact absurd hx hc
      simp [delete_item, hb]

/-- Witness for C8: updating the single item of a one-item store stores a
present `updated_at` equal to the clock reading passed in. -/
theorem C8_updated_at_tracks_updates_witness :
    (⟨"k1", "b", none, [], 0, some 7⟩ : Item).updated_at = some 7 ∧
    dictGet "k1"
        (update_item [("k1", ⟨"k1", "a", none, [], 0, none⟩)] "k1"
          ⟨"b", none, []⟩ 7).2 =
      some ⟨"k1", "b", none, [], 0, some 7⟩ :=
  (C8_updated_at_tracks_updates [("k1", ⟨"k1", "a", none, [], 0, none⟩)]
      ⟨"b", none, []⟩ "n1" "k1" "x1" 7).2.2.1
    ⟨"k1", "b", none, [], 0, some 7⟩ rfl

/-- C6: `list_items` returns the stored items in the insertion order of the
underlying dict: the listed ids are exactly the dict keys in order, an
update of a present key keeps the key sequence (hence the item's position)
unchanged, a fresh create appends its key at the end, and a delete removes
exactly its key, keeping the relative order of the rest. -/
theorem C6_list_insertion_order (tr : List Op) (id newId : String)
    (ic : ItemCreate) (now : Nat) :
    (list_items (run tr)).1.map Item.id = dictKeys (run tr) ∧
    (dictContains id (run tr) = true →
      dictKeys (update_item (run tr) id ic now).2 = dictKeys (run tr)) ∧
    (∀ s : Store, dictContains newId s = false →
      dictKeys (create_item s ic newId now).2 = dictKeys s ++ [newId]) ∧
    (∀ s : Store, dictKeys (delete_item s id).2 = (dictKeys s).erase id) := by
  refine ⟨?_, ?_, ?_, ?_⟩
  · exact values_map_id (run tr) (storeInv_run tr).1
  · intro hc
    rcases hg : dictGet id (run tr) with _ | ex
    · rw [dictContains, hg] at hc
      exact Bool.noConfusion hc
    · simp only [update_item, hg]
      exact dictKeys_dictSet_of_contains id _ (run tr) hc
  · intro s hf
    have h2 : (create_item s ic newId now).2 =
        dictSet newId (create_item s ic newId now).1 s := rfl
    rw [h2]
    exact dictKeys_dictSet_of_fresh newId _ s hf
  · intro s
    by_cases hc : dictContains id s = true
    · have h2 : (delete_item s id).2 = dictDelete id s := by
        simp [delete_item, hc]
      rw [h2]
      exact dictKeys_dictDelete id s
    · have hb : dictContains id s = false := by
        rcases hx : dictContains id s with _ | _
        · rfl
        · exact absurd hx hc
      have h2 : (delete_item s id).2 = s := by
        simp [delete_item, hb]
      rw [h2]
      exact (List.erase_of_not_mem
        (not_mem_keys_of_dictGet_eq_none id s
          (dictGet_eq_none_of_contains_false id s hb))).symm

/-- Witness for C6: updating the item created first in a two-item store
leaves the key order unchanged. -/
theorem C6_list_insertion_order_witness :
    dictKeys (update_item
        (run [Op.createOp ⟨"a", none, []⟩ "k1" 0,
              Op.createOp ⟨"b", none, []⟩ "k2" 1])
        "k1" ⟨"c", none, []⟩ 5).2 =
      dictKeys (run [Op.createOp ⟨"a", none, []⟩ "k1" 0,
                     Op.createOp ⟨"b", none, []⟩ "k2" 1]) :=
  (C6_list_insertion_order
      [Op.createOp ⟨"a", none, []⟩ "k1" 0, Op.createOp ⟨"b", none, []⟩ "k2" 1]
      "k1" "n1" ⟨"c", none, []⟩ 5).2.1 (by decide)

/-- C2: on a reachable store whose clock readings are all at most `now`,
`update_item` with an absent id returns `None` and leaves the store
unchanged; with a present id it returns and stores an item keeping the id
and `created_at` of the previous entry, taking `name`/`description`/`tags`
from the payload, with `updated_at = now`, a value at least any previous
`updated_at`. -/
theorem C2_update_semantics (tr : List Op) (id : String) (p : ItemCreate)
    (now : Nat) (hT : timesLE tr now = true) :
    (dictGet id (run tr) = none →
      update_item (run tr) id p now = (none, run tr)) ∧
    (∀ prev, dictGet id (run tr) = some prev →
      ∃ u, update_item (run tr) id p now = (some u, dictSet id u (run tr)) ∧
        u.id = prev.id ∧ u.created_at = prev.created_at ∧
        u.name = p.name ∧ u.description = p.description ∧ u.tags = p.tags ∧
        u.updated_at = some now ∧
        dictGet id (dictSet id u (run tr)) = some u ∧
        ∀ t, prev.updated_at = some t → t ≤ now) := by
  constructor
  · intro h
    simp [update_item, h]
  · intro prev hg
    have hmem := dictGet_mem id prev (run tr) hg
    have hpid : prev.id = id := (storeInv_run tr).1 id prev hmem
    have hcap := timeCap_run now tr hT id prev hmem
    simp only [update_item, hg]
    exact ⟨_, rfl, hpid.symm, rfl, rfl, rfl, rfl, rfl,
      dictGet_dictSet_self id _ (run tr), fun t ht => hcap.2 t ht⟩

/-- Witness for C2: updating the item stored under `"k1"` at time 5 on a
store created at time 0. -/
theorem C2_update_semantics_witness :
    ∃ u, update_item (run [Op.createOp ⟨"a", none, []⟩ "k1" 0]) "k1"
          ⟨"b", some "d", ["t"]⟩ 5 =
        (some u, dictSet "k1" u (run [Op.createOp ⟨"a", none, []⟩ "k1" 0])) ∧
      u.id = (⟨"k1", "a", none, [], 0, none⟩ : Item).id ∧
      u.created_at = (⟨"k1", "a", none, [], 0, none⟩ : Item).created_at ∧
      u.name = "b" ∧ u.description = some "d" ∧ u.tags = ["t"] ∧
      u.updated_at = some 5 ∧
      dictGet "k1" (dictSet "k1" u (run [Op.createOp ⟨"a", none, []⟩ "k1" 0])) =
        some u ∧
      ∀ t, (⟨"k1", "a", none, [], 0, none⟩ : Item).updated_at = some t →
        t ≤ 5 :=
  (C2_update_semantics [Op.createOp ⟨"a", none, []⟩ "k1" 0] "k1"
      ⟨"b", some "d", ["t"]⟩ 5 (by decide)).2
    ⟨"k1", "a", none, [], 0, none⟩ (by decide)

/-- C4: along any trace from the empty store in which every generated id is
fresh, the number of items listed by `list_items` (and the `total` reported
by the `GET /items` route) equals the number of `create_item` calls minus
the number of `delete_item` calls that returned `True`. -/
theorem C4_count_invariant (tr : List Op) (hf : freshAlong [] tr = true) :
    countTrueDeletes [] tr ≤ countCreates tr ∧
    (list_items (run tr)).1.length =
      countCreates tr - countTrueDeletes [] tr ∧
    (listItemsRoute (run tr)).1.2.total =
      countCreates tr - countTrueDeletes [] tr := by
  have h := length_runFrom_counts tr [] hf
  have h0 : (run tr).length + countTrueDeletes [] tr = countCreates tr := by
    rw [run]
    simpa using h
  have hl : (list_items (run tr)).1.length = (run tr).length := by
    simp [list_items, dictValues]
  have ht : (listItemsRoute (run tr)).1.2.total =
      (list_items (run tr)).1.length := rfl
  refine ⟨by omega, by omega, by rw [ht]; omega⟩

/-- Witness for C4: two creates followed by one successful delete leave one
listed item. -/
theorem C4_count_invariant_witness :
    (list_items (run [Op.createOp ⟨"a", none, []⟩ "k1" 0,
        Op.createOp ⟨"b", none, []⟩ "k2" 1,
        Op.deleteOp "k1"])).1.length =
      countCreates [Op.createOp ⟨"a", none, []⟩ "k1" 0,
          Op.createOp ⟨"b", none, []⟩ "k2" 1,
          Op.deleteOp "k1"] -
        countTrueDeletes [] [Op.createOp ⟨"a", none, []⟩ "k1" 0,
          Op.createOp ⟨"b", none, []⟩ "k2" 1,
          Op.deleteOp "k1"] :=
  (C4_count_invariant [Op.createOp ⟨"a", none, []⟩ "k1" 0,
      Op.createOp ⟨"b", none, []⟩ "k2" 1,
      Op.deleteOp "k1"] (by decide)).2.1

/-- Witness for C5 on a concrete trace of two creates and an update. -/
theorem C5_ids_unique_witness :
    (∀ k it, (k, it) ∈ run [Op.createOp ⟨"a", none, []⟩ "k1" 0,
        Op.createOp ⟨"b", none, []⟩ "k2" 1,
        Op.updateOp "k1" ⟨"c", none, []⟩ 2] → it.id = k) ∧
    NodupKeys (run [Op.createOp ⟨"a", none, []⟩ "k1" 0,
        Op.createOp ⟨"b", none, []⟩ "k2" 1,
        Op.updateOp "k1" ⟨"c", none, []⟩ 2]) ∧
    ((run [Op.createOp ⟨"a", none, []⟩ "k1" 0,
        Op.createOp ⟨"b", none, []⟩ "k2" 1,
        Op.updateOp "k1" ⟨"c", none, []⟩ 2]).map
      (fun kv => kv.2.id)).Nodup :=
  C5_ids_unique [Op.createOp ⟨"a", none, []⟩ "k1" 0,
    Op.createOp ⟨"b", none, []⟩ "k2" 1,
    Op.updateOp "k1" ⟨"c", none, []⟩ 2]

/-- Witness for C7 at a concrete timestamp string. -/
theorem C7_health_endpoints_witness :
    (healthRoute "2024-01-01T00:00:00").1 = 200 ∧
    (healthRoute "2024-01-01T00:00:00").2.status = "healthy" ∧
    liveRoute.1 = 200 ∧
    liveRoute.2 = [("status", "alive")] ∧
    readyRoute.1 = 200 ∧
    (readyRoute.2.ready = true ↔ ∀ c ∈ readyRoute.2.checks, c.2 = true) ∧
    readyRoute.2.checks = [("api", true)] :=
  C7_health_endpoints "2024-01-01T00:00:00"

/-- Witness for C9 on a concrete one-item store. -/
theorem C9_reads_pure_witness :
    (get_item [("k1", ⟨"k1", "a", none, [], 0, none⟩)] "k1").2 =
      [("k1", (⟨"k1", "a", none, [], 0, none⟩ : Item))] ∧
    (list_items [("k1", ⟨"k1", "a", none, [], 0, none⟩)]).2 =
      [("k1", (⟨"k1", "a", none, [], 0, none⟩ : Item))] :=
  C9_reads_pure [("k1", ⟨"k1", "a", none, [], 0, none⟩)] "k1"
